import Mathlib

/-!
Shallow embedding of the SQL Safety Guard + ReAct Step Controller of the
db-agent repository (src/db-agent/app/guard.py, planner.py, memory.py,
schemas.py, errors.py, tools.py), together with theorems settling the
claims C1..C10.

Conventions of the embedding:
* SQL text is modelled as `List Char` (Python `str` is a sequence of code
  points; Lean `String` wraps `List Char`).  `Char.toUpper`/`Char.toLower`
  model Python's `str.upper`/`str.lower` on the ASCII fragment actually
  exercised by the guard (all keywords are ASCII; CJK characters are left
  unchanged by both).
* Python regular expressions are modelled by hand-rolled scanners with the
  exact matching semantics of the patterns in the source (`\b` word
  boundaries over `[A-Za-z0-9_]`, greedy `[^\n]*`, lazy `.*?`, `\s` over
  ASCII whitespace).  Python's `re` module is Unicode-aware; the model
  covers the ASCII fragment, which is exact for every string the theorems
  touch.
* A Python function that can raise is modelled with `Option` (`none` =
  exception propagates).
-/

namespace DbAgent

/-! ### Character classes (models of `\s`, `\w`, `\d` over ASCII) -/

def isWsChar (c : Char) : Bool :=
  c = ' ' || c = '\t' || c = '\n' || c = '\r' || c = '\x0b' || c = '\x0c'

def isWordChar (c : Char) : Bool :=
  c.isAlpha || c.isDigit || c = '_'

def upperL (s : List Char) : List Char := s.map Char.toUpper

/-! ### Literal matching -/

/-- Match a literal `kw` at the head of `s`; on success return the rest. -/
def litMatch : List Char → List Char → Option (List Char)
  | [], s => some s
  | _ :: _, [] => none
  | k :: ks, c :: cs => if c = k then litMatch ks cs else none

/-- Case-insensitive literal match; `kw` is given in upper case. -/
def litMatchCI : List Char → List Char → Option (List Char)
  | [], s => some s
  | _ :: _, [] => none
  | k :: ks, c :: cs => if c.toUpper = k then litMatchCI ks cs else none

/-- `\b` before the match position: the previous character (if any) is not
a word character. -/
def boundaryBefore : Option Char → Bool
  | none => true
  | some c => !isWordChar c

/-- `\b` after the match: the next character (if any) is not a word
character. -/
def boundaryAfter : List Char → Bool
  | [] => true
  | c :: _ => !isWordChar c

/-- Generic left-to-right scanner: does pattern `p` match at some position
of the text whose previous character is not a word character (the `\b` that
opens every blacklist pattern)?  `prev` is the character just before the
current position. -/
def scanPAux (p : List Char → Bool) : Option Char → List Char → Bool
  | _, [] => false
  | prev, c :: cs => (boundaryBefore prev && p (c :: cs)) || scanPAux p (some c) cs

def scanP (p : List Char → Bool) (s : List Char) : Bool := scanPAux p none s

/-- `kw\b` at the head of `s` (the closing word boundary). -/
def wholeWordAt (kw : List Char) (s : List Char) : Bool :=
  match litMatch kw s with
  | none => false
  | some rest => boundaryAfter rest

/-- `\bkw\b` somewhere in `s` (model of `DDL_DML` per keyword). -/
def hasWholeWord (kw : List Char) (s : List Char) : Bool :=
  scanP (wholeWordAt kw) s

/-! ### guard.py: comment stripping

`SQL_COMMENT = (--[^\n]*\n)|(/\*.*?\*/)` with `re.S`, applied by a single
left-to-right `re.sub` pass.  A `--` comment must end with a newline to
match; a `/*` comment extends to the first `*/`. -/

/-- Drop through the first `'\n'` (the greedy `[^\n]*` followed by `\n`);
`none` when no newline follows. -/
def dropThroughNewline : List Char → Option (List Char)
  | [] => none
  | c :: rest => if c = '\n' then some rest else dropThroughNewline rest

/-- Drop through the first `*/` (the lazy `.*?\*/`); `none` when absent. -/
def dropThroughStarSlash : List Char → Option (List Char)
  | [] => none
  | [_] => none
  | c :: d :: rest =>
    if c = '*' ∧ d = '/' then some rest else dropThroughStarSlash (d :: rest)

theorem dropThroughNewline_length {l r : List Char}
    (h : dropThroughNewline l = some r) : r.length < l.length := by
  induction l with
  | nil => simp [dropThroughNewline] at h
  | cons c cs ih =>
    simp only [dropThroughNewline] at h
    split at h
    · rw [Option.some.injEq] at h; subst h; simp
    · have := ih h; simp; omega

theorem dropThroughStarSlash_length {l r : List Char}
    (h : dropThroughStarSlash l = some r) : r.length < l.length := by
  induction l using dropThroughStarSlash.induct with
  | case1 => simp [dropThroughStarSlash] at h
  | case2 => simp [dropThroughStarSlash] at h
  | case3 c d rest hcd =>
    rw [dropThroughStarSlash, if_pos hcd, Option.some.injEq] at h
    subst h; simp; omega
  | case4 c d rest hcd ih =>
    rw [dropThroughStarSlash, if_neg hcd] at h
    have := ih h; simp at this ⊢; omega

/-- One `re.sub` pass for `SQL_COMMENT`, with explicit fuel so that the
definition is structurally recursive (and hence kernel-computable).  Every
recursive call consumes at least one character of the text
(`dropThroughNewline_length` / `dropThroughStarSlash_length`), so
`length + 1` fuel always suffices and the fuel-exhausted branch is dead. -/
def stripCommentsAux : Nat → List Char → List Char
  | 0, s => s
  | fuel + 1, s =>
    match s with
    | [] => []
    | [a] => [a]
    | a :: b :: rest2 =>
      if a = '-' ∧ b = '-' then
        match dropThroughNewline rest2 with
        | some r => stripCommentsAux fuel r
        | none => a :: stripCommentsAux fuel (b :: rest2)
      else if a = '/' ∧ b = '*' then
        match dropThroughStarSlash rest2 with
        | some r => stripCommentsAux fuel r
        | none => a :: stripCommentsAux fuel (b :: rest2)
      else a :: stripCommentsAux fuel (b :: rest2)

/-- Model of `strip_comments` (guard.py line 20-21): one `re.sub` pass.
At each position the engine tries the `--` alternative (which requires a
closing newline), then the `/*` alternative (which requires a closing
`*/`); on failure it emits one character and moves on. -/
def strip_comments (s : List Char) : List Char :=
  stripCommentsAux (s.length + 1) s

/-- Model of `single_statement` (guard.py line 23-26): `re.split(";")[0]`,
the prefix before the first semicolon. -/
def single_statement (s : List Char) : List Char :=
  s.takeWhile (· ≠ ';')

/-- Model of `sanitize_sql` (guard.py line 53-57). -/
def sanitize_sql (s : List Char) : List Char :=
  single_statement (strip_comments s)

/-! ### guard.py: read-only enforcement -/

def KEYWORDS : List String :=
  ["INSERT", "UPDATE", "DELETE", "MERGE", "REPLACE", "DROP",
   "TRUNCATE", "ALTER", "CREATE", "GRANT", "REVOKE"]

/-- `DDL_DML.search(s)`: some keyword occurs as a whole word. -/
def ddl_dml_hit (su : List Char) : Bool :=
  KEYWORDS.any fun kw => hasWholeWord kw.toList su

/-- `\b(SLEEP|BENCHMARK|LOAD_FILE)\s*\(` at the head of `s`. -/
def funcCallAt (name : List Char) (s : List Char) : Bool :=
  match litMatch name s with
  | none => false
  | some rest =>
    match rest.dropWhile isWsChar with
    | '(' :: _ => true
    | _ => false

def dangerous_hit (su : List Char) : Bool :=
  ["SLEEP", "BENCHMARK", "LOAD_FILE"].any fun n => scanP (funcCallAt n.toList) su

/-- A sequence of words separated by `\s+`, closed by `\b`
(`INTO\s+OUTFILE` and friends). -/
def wordSeqAt : List (List Char) → List Char → Bool
  | [], s => boundaryAfter s
  | w :: ws, s =>
    match litMatch w s with
    | none => false
    | some rest =>
      match ws with
      | [] => boundaryAfter rest
      | _ :: _ =>
        match rest with
        | [] => false
        | c :: cs => if isWsChar c then wordSeqAt ws (cs.dropWhile isWsChar) else false

def outfile_hit (su : List Char) : Bool :=
  [["INTO", "OUTFILE"], ["INTO", "DUMPFILE"], ["LOAD", "DATA", "INFILE"]].any
    fun p => scanP (wordSeqAt (p.map String.toList)) su

/-- `ALLOWED_START = ^\s*(SELECT|WITH)\b` (case-insensitive).  The source
checks the blacklists on `s.upper()` and `ALLOWED_START` on the original
string with `re.I`; both are equivalent to checking the upper-cased text. -/
def allowed_start (su : List Char) : Bool :=
  let t := su.dropWhile isWsChar
  wholeWordAt "SELECT".toList t || wholeWordAt "WITH".toList t

/-- Model of `ensure_read_only` (guard.py line 46-51); `true` = no
`ValueError` raised. -/
def ensure_read_only_ok (s : List Char) : Bool :=
  let su := upperL s
  !(ddl_dml_hit su || dangerous_hit su || outfile_hit su) && allowed_start su

/-! ### guard.py: LIMIT handling -/

/-- Python `str.strip()`: remove leading and trailing whitespace. -/
def stripWs (s : List Char) : List Char :=
  ((s.dropWhile isWsChar).reverse.dropWhile isWsChar).reverse

/-- Decimal rendering with fuel (one digit is produced per unit of fuel
and `n / 10 < n`, so `n + 1` fuel always suffices). -/
def natToDecAux : Nat → Nat → List Char
  | 0, _ => []
  | fuel + 1, n =>
    if n < 10 then [Char.ofNat (48 + n)]
    else natToDecAux fuel (n / 10) ++ [Char.ofNat (48 + n % 10)]

/-- Decimal rendering of a natural number, the model of Python
`f"{n}"`. -/
def natToDec (n : Nat) : List Char := natToDecAux (n + 1) n

def digitsVal (ds : List Char) : Nat :=
  ds.foldl (fun a c => a * 10 + (c.toNat - 48)) 0

/-- `limit\s+\d+` at the head of `s` (case-insensitive), used with the
opening `\b` by `HAS_LIMIT`. -/
def limitPatAt (s : List Char) : Bool :=
  match litMatchCI "LIMIT".toList s with
  | none => false
  | some r =>
    match r with
    | [] => false
    | c :: cs =>
      isWsChar c &&
        (match cs.dropWhile isWsChar with
         | d :: _ => d.isDigit
         | [] => false)

/-- `HAS_LIMIT = \blimit\s+\d+` (re.I). -/
def hasLimit (s : List Char) : Bool := scanP limitPatAt s

/-- The first match of `limit\s+(\d+)` (re.I, NO word boundary): the
captured number, scanning left to right.  Models
`re.search(r"limit\s+(\d+)", s, re.I)` in `cap_limit`. -/
def limitValAt (s : List Char) : Option Nat :=
  match litMatchCI "LIMIT".toList s with
  | none => none
  | some r =>
    let ws := r.takeWhile isWsChar
    if ws.isEmpty then none
    else
      let r2 := r.dropWhile isWsChar
      let ds := r2.takeWhile Char.isDigit
      if ds.isEmpty then none else some (digitsVal ds)

def limitNoB : List Char → Option Nat
  | [] => none
  | c :: cs =>
    match limitValAt (c :: cs) with
    | some v => some v
    | none => limitNoB cs

/-- One match of `(limit\s+)\d+` at the head of `s`: on success return the
group-1 text (the original `limit` spelling plus the whitespace run) and
the rest after the digit run. -/
def subMatchAt (s : List Char) : Option (List Char × List Char) :=
  match litMatchCI "LIMIT".toList s with
  | none => none
  | some r =>
    let ws := r.takeWhile isWsChar
    if ws.isEmpty then none
    else
      let r2 := r.dropWhile isWsChar
      let ds := r2.takeWhile Char.isDigit
      if ds.isEmpty then none
      else some (s.take 5 ++ ws, r2.dropWhile Char.isDigit)

theorem litMatchCI_some_length {kw s r : List Char}
    (h : litMatchCI kw s = some r) : r.length + kw.length = s.length := by
  induction kw generalizing s with
  | nil => simp [litMatchCI] at h; simp [h]
  | cons k ks ih =>
    cases s with
    | nil => simp [litMatchCI] at h
    | cons c cs =>
      simp only [litMatchCI] at h
      split at h
      · have := ih h
        simp at this ⊢
        omega
      · exact absurd h (by simp)

theorem length_dropWhile_le (p : Char → Bool) (l : List Char) :
    (l.dropWhile p).length ≤ l.length := by
  induction l with
  | nil => simp
  | cons c cs ih =>
    by_cases h : p c = true
    · rw [List.dropWhile_cons_of_pos h]; exact Nat.le_trans ih (by simp)
    · rw [List.dropWhile_cons_of_neg (by simpa using h)]

theorem subMatchAt_length {s : List Char} {pr : List Char × List Char}
    (h : subMatchAt s = some pr) : pr.2.length < s.length := by
  unfold subMatchAt at h
  split at h
  · exact absurd h (by simp)
  · rename_i r hr
    simp only at h
    split at h
    · exact absurd h (by simp)
    · split at h
      · exact absurd h (by simp)
      · rw [Option.some.injEq] at h
        subst h
        have hlen : r.length + 5 = s.length := litMatchCI_some_length hr
        have h1 : ((r.dropWhile isWsChar).dropWhile Char.isDigit).length ≤ r.length :=
          Nat.le_trans (length_dropWhile_le _ _) (length_dropWhile_le _ _)
        simp only
        omega

/-- Fueled scanner for `re.sub`; a successful match consumes at least one
character (`subMatchAt_length`), so `length + 1` fuel suffices. -/
def subLimitAllAux : Nat → Nat → List Char → List Char
  | 0, _, s => s
  | fuel + 1, newv, s =>
    match s with
    | [] => []
    | c :: cs =>
      match subMatchAt (c :: cs) with
      | some pr => pr.1 ++ natToDec newv ++ subLimitAllAux fuel newv pr.2
      | none => c :: subLimitAllAux fuel newv cs

/-- `re.sub(r"(limit\s+)\d+", \g<1>newv, s, re.I)`: replace every
non-overlapping match, scanning left to right. -/
def subLimitAll (newv : Nat) (s : List Char) : List Char :=
  subLimitAllAux (s.length + 1) newv s

/-- Model of `cap_limit` (guard.py line 28-44).  Note: when no LIMIT is
present the source appends `LIMIT {max_limit}` (not the default limit). -/
def cap_limit (sql : List Char) (maxLimit : Nat) : List Char × Nat :=
  let s := stripWs sql
  if !hasLimit s then
    (s ++ (" LIMIT ".toList ++ natToDec maxLimit), maxLimit)
  else
    match limitNoB s with
    | none => (s, maxLimit)
    | some cur =>
      if cur > maxLimit then (subLimitAll maxLimit s, maxLimit)
      else (s, cur)

/-- Model of `ensure_safe_sql` (guard.py line 59-69); `none` = the
`ValueError` from `ensure_read_only` propagates (rejection). -/
def ensure_safe_sql (sql : String) (defaultLimit maxLimit : Nat) : Option String :=
  let s := sanitize_sql sql.toList
  if ensure_read_only_ok s then
    let s2 := (cap_limit s maxLimit).1
    let s3 := if hasLimit s2 then s2 else s2 ++ (" LIMIT ".toList ++ natToDec defaultLimit)
    some ⟨s3⟩
  else none

/-! ## Data model (planner.py, schemas.py, errors.py)

`schemas.py` confines the action of every validated decision to the closed
5-member enum `ActionName`; steps are only ever appended with validated
actions, so `Action` is the faithful type of both. -/

inductive Action
  | list_tables | describe_table | sample_rows | run_sql | finish
deriving DecidableEq, Repr

/-- Argument values (`args : Dict[str, Any]`); the controller only ever
stores strings and integers there. -/
inductive AVal
  | str (v : String)
  | int (v : Int)
deriving DecidableEq, Repr

abbrev Args := List (String × AVal)

def argsGet (args : Args) (k : String) : Option AVal :=
  (args.find? (fun p => p.1 == k)).map Prod.snd

/-- `args.get(k, dflt)` where a string is expected (the controller never
stores a non-string under a string-valued key). -/
def argStr (args : Args) (k : String) (dflt : String) : String :=
  match argsGet args k with
  | some (.str v) => v
  | _ => dflt

def argInt (args : Args) (k : String) (dflt : Int) : Int :=
  match argsGet args k with
  | some (.int v) => v
  | _ => dflt

/-- `observation["error"]`: either the `{code, message}` dict produced by
the executor (db.py `_result_err`) or the plain string produced by
`run_action`'s unknown-action branch. -/
inductive ErrV
  | codeMsg (code msg : String)
  | plain (s : String)
deriving DecidableEq, Repr

/-- A column entry of a described schema: a dict with a `name` key, a bare
string, or anything else (memory.py probes all three shapes). -/
inductive ColE
  | named (name : String)
  | plain (s : String)
  | other
deriving DecidableEq, Repr

/-- Dynamic observation dict: one optional field for every key the
controller reads.  `data` is the opaque row payload of
`run_sql`/`sample_rows`; its Python falsiness (None/empty) is modelled by
`none`/the empty string. -/
structure Obs where
  ok : Bool := false
  error : Option ErrV := none
  tables : Option (List String) := none
  dataAll : Option (List String) := none      -- obs["data"]["all"]
  dataMatches : Option (List String) := none  -- obs["data"]["matches"]
  columns : Option (List ColE) := none
  dataColumns : Option (List ColE) := none    -- obs["data"]["columns"]
  data : Option String := none
  preview : Option String := none
  matchesF : Option (List String) := none     -- summarized "matches" key
deriving DecidableEq, Repr

/-- errors.py `ok(res)`: `bool(res and res.get("ok", True) and not
res.get("error"))`.  Observations here are always non-empty dicts carrying
an explicit `ok` key, so this reduces to `ok ∧ error falsy`. -/
def okRes (o : Obs) : Bool := o.ok && o.error.isNone

/-- errors.py `code(res)`: `(res.get("error") or {}).get("code","UNKNOWN")`.
`none` models the `AttributeError` raised when the error value is a plain
string (`str` has no `.get`). -/
def codeRes (o : Obs) : Option String :=
  match o.error with
  | none => some "UNKNOWN"
  | some (.codeMsg c _) => some c
  | some (.plain _) => none

structure Step where
  thought : String := ""
  action : Action
  args : Args := []
  observation : Obs := {}
deriving DecidableEq, Repr

structure Evid where
  preview : Option String := none
  sql : Option String := none
  table : Option String := none
deriving DecidableEq, Repr

structure Answer where
  ok : Bool
  reason : Option String := none
  final : Option String := none
  evidence : Option Evid := none
  trace : Option (List Step) := none
deriving DecidableEq, Repr

/-- planner.py class `S` (line 38-46). -/
structure S where
  question : String
  steps : List Step := []
  known_tables : List String := []
  known_schemas : List (String × Obs) := []   -- insertion-ordered dict
  last_error : Option String := none
  done : Bool := false
  answer : Option Answer := none
  max_steps : Nat := 20
deriving DecidableEq, Repr

/-- schemas.py `DecideOut`: a validated decision. -/
structure DecideOut where
  thought : String := ""
  action : Action
  args : Args := []
deriving DecidableEq, Repr

/-! ### String helpers (models of Python `str` operations) -/

def strLower (s : String) : String := ⟨s.toList.map Char.toLower⟩

def hasPrefixB : List Char → List Char → Bool
  | [], _ => true
  | _ :: _, [] => false
  | n :: ns, h :: hs => n = h && hasPrefixB ns hs

def infixChars (needle : List Char) : List Char → Bool
  | [] => needle.isEmpty
  | h :: hs => hasPrefixB needle (h :: hs) || infixChars needle hs

/-- Python `needle in hay` (substring containment). -/
def containsSub (needle hay : String) : Bool := infixChars needle.toList hay.toList

/-- Lexicographic code-point comparison, Python `str.__le__`. -/
def lexLe : List Char → List Char → Bool
  | [], _ => true
  | _ :: _, [] => false
  | a :: as, b :: bs => if a = b then lexLe as bs else decide (a < b)

def strLe (a b : String) : Bool := lexLe a.toList b.toList

def insSorted (x : String) : List String → List String
  | [] => [x]
  | y :: ys => if strLe x y then x :: y :: ys else y :: insSorted x ys

def sortStr (xs : List String) : List String := xs.foldr insSorted []

/-- Python `sorted(set(xs))`. -/
def sortedDedup (xs : List String) : List String := sortStr xs.dedup

def truthyStr : Option String → Bool
  | none => false
  | some v => !(v == "")

/-- Python `xs[-n:]` for `n > 0`. -/
def lastN (n : Nat) (xs : List Step) : List Step := xs.drop (xs.length - n)

/-! ### planner.py helpers -/

/-- planner.py `_has_recent_sql_evidence` (line 271-283): some step within
the last `lookback` has `action == "run_sql"`, a truthy `observation.ok`
and a truthy `observation.preview`.  (Only `run_sql` counts;
`sample_rows` does not.) -/
def has_recent_sql_evidence (s : S) (lookback : Nat := 6) : Bool :=
  (lastN lookback s.steps).any fun st =>
    st.action == Action.run_sql && st.observation.ok && truthyStr st.observation.preview

/-- planner.py `_infer_candidate_tables` (line 120-138).  The regex
disjunct `re.search(rf"\b{re.escape(tl)}\b", q)` in phase 1 is subsumed by
the substring test `tl in q` that precedes it in the same disjunction, so
the filter reduces to "nonempty and substring of the lowered question". -/
def infer_candidate_tables (s : S) (topK : Nat := 3) : List String :=
  let q := strLower s.question
  let pri1 := s.known_tables.foldl (fun pri t =>
    let tl := strLower t
    if !(tl == "") && containsSub tl q then pri ++ [t] else pri) []
  let pri2 := (s.known_schemas.map Prod.fst).foldl (fun pri t =>
    if !pri.contains t && s.known_tables.contains t then pri ++ [t] else pri) pri1
  let pri3 := s.known_tables.foldl (fun pri t =>
    if !pri.contains t then pri ++ [t] else pri) pri2
  pri3.take topK

def COUNT_KEYS : List String :=
  ["多少", "有几个", "数量", "总数", "count", "计数", "几人", "几项", "几条", "几个"]

/-- planner.py `_is_count_question` (line 141-144). -/
def is_count_question (text : String) : Bool :=
  let t := strLower text
  COUNT_KEYS.any fun k => containsSub k t

/-- The finish-rewrite block inlined in planner.py `decide`
(line 166-208): the Evidence Guard.  Applied only when the validated
decision proposes `finish`; the surrounding `try/except` is dead in this
model because the block is total. -/
def rewrite_finish (s : S) (p : DecideOut) : DecideOut :=
  if has_recent_sql_evidence s then p
  else if s.known_tables.isEmpty then
    { thought := p.thought ++ "\n[guard] 改写 finish 为 list_tables 获取全量表名（通用）",
      action := .list_tables, args := [] }
  else
    let cands := infer_candidate_tables s 3
    let ks := s.known_schemas.map Prod.fst
    match cands.find? (fun t => !ks.contains t) with
    | some t =>
      { thought := p.thought ++ ("\n[guard] 改写 finish 为 describe_table(" ++ t ++ ") 以获取结构证据（通用）"),
        action := .describe_table, args := [("table", .str t)] }
    | none =>
      match (match cands with | c :: _ => some c | [] => s.known_tables.head?) with
      | some target =>
        if is_count_question s.question then
          { thought := p.thought ++ ("\n[guard] 识别为计数问题，改写 finish 为 run_sql(COUNT `" ++ target ++ "`)（通用）"),
            action := .run_sql,
            args := [("sql", .str ("SELECT COUNT(*) AS cnt FROM `" ++ target ++ "`"))] }
        else
          { thought := p.thought ++ ("\n[guard] 改写 finish 为 run_sql(抽样 " ++ target ++ ") 以获取直接证据（通用）"),
            action := .run_sql,
            args := [("sql", .str ("SELECT * FROM `" ++ target ++ "` LIMIT 5"))] }
      | none =>
        { thought := p.thought ++ "\n[guard] 改写 finish 为 list_tables（通用兜底）",
          action := .list_tables, args := [] }

/-! ### Executor capability and the controller nodes -/

/-- A query-executor result (tools.py wraps this capability over HTTP;
db.py implements it).  Per db.py `_result_ok`/`_result_err`, results
always carry an explicit `ok` and a dict-shaped `{code, message}` error. -/
structure ExecResult where
  ok : Bool := true
  errCode : Option (String × String) := none
  tables : Option (List String) := none
  dataAll : Option (List String) := none
  dataMatches : Option (List String) := none
  columns : Option (List ColE) := none
  dataColumns : Option (List ColE) := none
  data : Option String := none
deriving DecidableEq, Repr

def ExecResult.toObs (r : ExecResult) : Obs :=
  { ok := r.ok, error := r.errCode.map fun p => ErrV.codeMsg p.1 p.2,
    tables := r.tables, dataAll := r.dataAll, dataMatches := r.dataMatches,
    columns := r.columns, dataColumns := r.dataColumns, data := r.data }

/-- The external query-executor capability. -/
structure Executor where
  listTables : ExecResult
  describeTable : String → ExecResult
  runSql : String → Int → ExecResult

def intToDec (i : Int) : List Char :=
  if i < 0 then '-' :: natToDec i.natAbs else natToDec i.toNat

/-- tools.py `sample_rows` (line 25-27): builds a constrained query and
forwards it to `mcp_read_query`. -/
def sample_rows_sql (table : String) (limit : Int) : String :=
  "SELECT * FROM `" ++ table ++ "` LIMIT " ++ ⟨intToDec limit⟩

/-- planner.py `run_action` (line 93-103).  The `run_sql` branch hands
`args["sql"]` to the executor VERBATIM — it calls `mcp_read_query`
directly and does not route through `_safe_read`/`ensure_safe_sql`.  A
`finish` action falls into the unknown-action `else` branch, producing an
`ok=False` observation whose error is a plain string. -/
def run_action (ex : Executor) (a : Action) (args : Args) : Obs :=
  match a with
  | .list_tables => ex.listTables.toObs
  | .describe_table => (ex.describeTable (argStr args "table" "")).toObs
  | .sample_rows =>
    (ex.runSql (sample_rows_sql (argStr args "table" "") (argInt args "limit" 5))
      (argInt args "limit" 5)).toObs
  | .run_sql => (ex.runSql (argStr args "sql" "") (argInt args "limit" 1000)).toObs
  | .finish => { ok := false, error := some (.plain "未知动作: finish") }

/-- Python `a or b` over optional lists (left operand kept when truthy,
i.e. a non-empty list). -/
def pyOrL {α} (a b : Option (List α)) : Option (List α) :=
  match a with
  | some (x :: xs) => some (x :: xs)
  | _ => b

/-- planner.py `summarize_obs` (line 238-251).  `action in ("list_tables")`
is Python substring containment in the string `"list_tables"`, which over
the closed action enum holds exactly for `list_tables`. -/
def summarize_obs (a : Action) (obs : Obs) : Obs :=
  match a with
  | .list_tables =>
    { ok := okRes obs, matchesF := obs.dataMatches,
      tables := pyOrL obs.tables obs.dataAll, error := obs.error }
  | .describe_table =>
    { ok := okRes obs, columns := pyOrL obs.columns obs.dataColumns, error := obs.error }
  | .sample_rows => { ok := okRes obs, preview := obs.data, error := obs.error }
  | .run_sql => { ok := okRes obs, preview := obs.data, error := obs.error }
  | .finish => obs

/-- planner.py `_latest_evidence` (line 254-268): the most recent
`run_sql`/`sample_rows` step whose summarized `preview` is not `None`. -/
def latest_evidence (s : S) : Evid :=
  match s.steps.reverse.find? (fun st =>
    (st.action == Action.run_sql || st.action == Action.sample_rows) &&
      st.observation.preview.isSome) with
  | some st =>
    { preview := st.observation.preview,
      sql := if st.action == Action.run_sql then
          (match argsGet st.args "sql" with | some (.str v) => some v | _ => none)
        else none,
      table := if st.action == Action.sample_rows then
          (match argsGet st.args "table" with | some (.str v) => some v | _ => none)
        else none }
  | none => {}

/-- `allnames = obs.get("tables") or obs.get("data",{}).get("all",[])`,
then `allnames or []`. -/
def namesFromObs (obs : Obs) : List String :=
  match obs.tables with
  | some (x :: xs) => x :: xs
  | _ => obs.dataAll.getD []

/-- Python dict assignment `d[k] = v`: overwrite in place, else append. -/
def dictInsert (d : List (String × Obs)) (k : String) (v : Obs) : List (String × Obs) :=
  if d.any (fun p => p.1 == k) then d.map (fun p => if p.1 == k then (k, v) else p)
  else d ++ [(k, v)]

/-- planner.py `act` (line 213-236).  `none` models the two ways `act`
raises: `state.steps[-1]` on an empty list (IndexError), and `code(obs)`
on a plain-string error (AttributeError inside errors.py `code`).  Since
`run_action` has no `finish` case, every executed `finish` action yields a
plain-string-error `ok=False` observation, so its `last_error` assignment
always hits that AttributeError. -/
def act (ex : Executor) (s : S) : Option S :=
  match s.steps.getLast? with
  | none => none
  | some step =>
    let obs := run_action ex step.action step.args
    let sobs := summarize_obs step.action obs
    let s1 : S := { s with steps := s.steps.dropLast ++ [{ step with observation := sobs }] }
    let s2 := if step.action == Action.list_tables && okRes obs then
        { s1 with known_tables := sortedDedup (s1.known_tables ++ namesFromObs obs) }
      else s1
    let s3 := if step.action == Action.describe_table && okRes obs then
        { s2 with known_schemas := dictInsert s2.known_schemas (argStr step.args "table" "") obs }
      else s2
    let s4 := if step.action == Action.finish then
        { s3 with
            done := true
            answer := some { ok := true, final := obs.data,
                             evidence := some (latest_evidence s3) } }
      else s3
    if okRes obs then some s4
    else match codeRes obs with
      | some c => some { s4 with last_error := some c }
      | none => none

/-- planner.py `judge` (line 286-299).  The non-done branch computes a
heuristic condition and then does nothing (`pass`). -/
def judge (s : S) : S :=
  if s.done then
    match s.steps.getLast? with
    | some last =>
      if last.action == Action.finish && !has_recent_sql_evidence s then
        { s with done := false, last_error := some "premature_finish" }
      else s
    | none => s
  else s

/-- planner.py `decide` (line 146-211), with the external
`llm_decide_with_memory` + `validate_decide` composite abstracted as the
parameter `dm`.  The length comparison `len(state.steps) > state.max_steps
- 2` is over Python integers, hence the cast to `Int`. -/
def decideStep (dm : S → DecideOut) (s : S) : S :=
  let s := if s.done then { s with done := false, answer := none } else s
  let s := if (s.steps.length : Int) > (s.max_steps : Int) - 2 then
      { s with steps := lastN (max (s.max_steps / 2) 6) s.steps }
    else s
  if s.steps.length ≥ s.max_steps then
    { s with
        done := true
        answer := some { ok := false, reason := some "step_budget_exceeded",
                         trace := some s.steps } }
  else
    let parsed := dm s
    let parsed := if parsed.action == Action.finish then rewrite_finish s parsed else parsed
    { s with steps := s.steps ++ [{ thought := parsed.thought, action := parsed.action,
                                    args := parsed.args }] }

/-- One pass of the compiled LangGraph (planner.py line 301-310):
decide → act → judge; the conditional edge after judge loops to decide
while `done` is false. -/
def controllerStep (dm : S → DecideOut) (ex : Executor) (s : S) : Option S :=
  (act ex (decideStep dm s)).map judge

def iterCtrl (dm : S → DecideOut) (ex : Executor) : Nat → S → Option S
  | 0, s => some s
  | n + 1, s =>
    match controllerStep dm ex s with
    | none => none
    | some s2 => iterCtrl dm ex n s2

/-- A fresh session state, as server.py hands it to `graph.invoke`
(question set, `done=False`, `answer=None`). -/
def initState (q : String) (m : Nat) : S := { question := q, max_steps := m }

def answerReason (s : S) : Option String :=
  match s.answer with
  | some a => a.reason
  | none => none

/-! ## memory.py: context summarizer -/

/-- memory.py `truncate_list` (line 4-5): `xs[:n] if xs else []`.  No
ellipsis marker is appended. -/
def truncate_list {α} (xs : List α) (n : Nat) : List α := xs.take n

/-- memory.py `truncate_text` (line 7-10):
`s[:max_chars] + ("…" if len(s) > max_chars else "")`. -/
def truncate_text (s : String) (maxChars : Nat) : String :=
  if s == "" then ""
  else ⟨s.toList.take maxChars⟩ ++ (if maxChars < s.toList.length then "…" else "")

/-- One entry of the `recent_steps` trail built by `summarize_context`. -/
structure TrailEntry where
  thought : String
  action : Action
  args : Args
  ok : Bool
  err : Option String
  tables : Option (List String)
  matchesT : Option (List String)
  columns : Option (List ColE)
  preview : Option String
deriving DecidableEq, Repr

/-- The payload dict that memory.py `summarize_context` serializes with
`json.dumps`. -/
structure ContextPayload where
  known_tables : List String
  known_schemas : List (String × List String)
  recent_steps : List TrailEntry
  last_error_code : Option String
deriving DecidableEq, Repr

/-- The `err` field of a trail entry:
`(obs.get("error") or {}).get("code") if ... and obs.get("error") else
None`.  `none` (outer) models the AttributeError raised when the error
value is a plain string. -/
def trailErr (e : Option ErrV) : Option (Option String) :=
  match e with
  | none => some none
  | some (.codeMsg c _) => some (some c)
  | some (.plain _) => none

/-- memory.py `summarize_context` (line 12-59), modelled up to the final
`json.dumps` (which is injective on this payload and irrelevant to
truncation).  Observations are always dicts and steps are always `Step`
objects in this controller, so the `isinstance` guards are decided
statically; the outer `none` models the AttributeError of `trailErr`. -/
def summarize_context (s : S) (maxTables : Nat := 40) (maxColsPerTable : Nat := 12)
    (maxPreviewChars : Nat := 400) (maxSteps : Nat := 6) : Option ContextPayload :=
  let tables := truncate_list (sortedDedup s.known_tables) maxTables
  let schemas := s.known_schemas.foldl (fun acc (p : String × Obs) =>
    let cols := (pyOrL p.2.columns p.2.dataColumns).getD []
    let names := cols.filterMap fun c => match c with
      | .named n => some n
      | .plain v => some v
      | .other => none
    if names.isEmpty then acc
    else acc ++ [(p.1, truncate_list names maxColsPerTable)]) []
  let trailOpt := (s.steps.drop (s.steps.length - maxSteps)).mapM fun st =>
    let obs := st.observation
    (trailErr obs.error).map fun errv =>
      { thought := truncate_text st.thought 240
        action := st.action
        args := st.args.map fun kv => match kv.2 with
          | .str v => (kv.1, AVal.str (truncate_text v 160))
          | _ => kv
        ok := obs.ok
        err := errv
        tables := obs.tables
        matchesT := obs.matchesF
        columns := obs.columns
        preview := if truthyStr obs.preview then
            some (truncate_text (obs.preview.getD "") maxPreviewChars)
          else none : TrailEntry }
  trailOpt.map fun trail =>
    { known_tables := tables, known_schemas := schemas,
      recent_steps := trail, last_error_code := s.last_error }

/-! ## Helper lemmas -/

def DIGITS : List Char := ['0', '1', '2', '3', '4', '5', '6', '7', '8', '9']

theorem natToDecAux_mem_digits :
    ∀ (fuel n : Nat), ∀ c ∈ natToDecAux fuel n, c ∈ DIGITS := by
  intro fuel
  induction fuel with
  | zero => intro n c hc; simp [natToDecAux] at hc
  | succ fuel ih =>
    intro n c hc
    rw [natToDecAux] at hc
    split at hc
    · rename_i h
      simp at hc
      subst hc
      interval_cases n <;> decide
    · rename_i h
      simp at hc
      rcases hc with hc | hc
      · exact ih _ c hc
      · subst hc
        have h10 : n % 10 < 10 := Nat.mod_lt _ (by omega)
        generalize hgen : n % 10 = k at h10 ⊢
        interval_cases k <;> decide

theorem natToDec_mem_digits (n : Nat) : ∀ c ∈ natToDec n, c ∈ DIGITS :=
  natToDecAux_mem_digits (n + 1) n

theorem natToDec_ne_nil (n : Nat) : natToDec n ≠ [] := by
  unfold natToDec
  rw [natToDecAux]
  split
  · simp
  · simp

theorem digit_facts {c : Char} (h : c ∈ DIGITS) :
    c.isDigit = true ∧ isWsChar c = false := by
  fin_cases h <;> exact ⟨by decide, by decide⟩

/-- Scanner completeness: `p` matches at a split point whose preceding
character is a non-word character, so the scan succeeds. -/
theorem scanPAux_append {p : List Char → Bool} {b : List Char} (hb : b ≠ [])
    (hp : p b = true) :
    ∀ (a : List Char) (prev : Option Char),
      boundaryBefore (a.getLast?.or prev) = true →
      scanPAux p prev (a ++ b) = true := by
  intro a
  induction a with
  | nil =>
    intro prev hbd
    simp only [List.getLast?_nil, Option.none_or] at hbd
    cases b with
    | nil => exact absurd rfl hb
    | cons c cs =>
      simp only [List.nil_append, scanPAux]
      rw [hbd, hp]
      rfl
  | cons x xs ih =>
    intro prev hbd
    have hbd' : boundaryBefore (xs.getLast?.or (some x)) = true := by
      cases hxs : xs with
      | nil => simpa [hxs] using hbd
      | cons y ys =>
        rw [hxs] at hbd
        have hsome : ((y :: ys).getLast?).isSome = true := by
          rw [List.getLast?_isSome]; simp
        obtain ⟨z, hz⟩ := Option.isSome_iff_exists.mp hsome
        rw [List.getLast?_cons_cons, hz] at hbd
        rw [hz]
        exact hbd
    rw [List.cons_append, scanPAux, ih (some x) hbd']
    simp

theorem litMatchCI_LIMIT (r : List Char) :
    litMatchCI "LIMIT".toList ('L' :: 'I' :: 'M' :: 'I' :: 'T' :: r) = some r := rfl

theorem limitPatAt_head (m : Nat) :
    limitPatAt ('L' :: 'I' :: 'M' :: 'I' :: 'T' :: ' ' :: natToDec m) = true := by
  obtain ⟨d, ds, hd⟩ := List.exists_cons_of_ne_nil (natToDec_ne_nil m)
  have hdig := natToDec_mem_digits m d (by rw [hd]; simp)
  obtain ⟨hdd, hdw⟩ := digit_facts hdig
  unfold limitPatAt
  rw [litMatchCI_LIMIT, hd]
  simp only [show isWsChar ' ' = true from rfl, Bool.true_and]
  rw [List.dropWhile_cons_of_neg (by simp [hdw])]
  exact hdd

theorem hasLimit_append_limit (x : List Char) (m : Nat) :
    hasLimit (x ++ (' ' :: 'L' :: 'I' :: 'M' :: 'I' :: 'T' :: ' ' :: natToDec m)) = true := by
  have hsplit : x ++ (' ' :: 'L' :: 'I' :: 'M' :: 'I' :: 'T' :: ' ' :: natToDec m)
      = (x ++ [' ']) ++ ('L' :: 'I' :: 'M' :: 'I' :: 'T' :: ' ' :: natToDec m) := by
    rw [List.append_assoc]
    rfl
  rw [hsplit]
  unfold hasLimit scanP
  exact scanPAux_append (by simp) (limitPatAt_head m) (x ++ [' ']) none
    (by rw [List.getLast?_concat]; rfl)

/-- Two consecutive characters opening a comment (`--` or `/*`) occur
somewhere in the text. -/
def hasCommentStart : List Char → Bool
  | [] => false
  | [_] => false
  | a :: b :: rest =>
    (a = '-' && b = '-') || (a = '/' && b = '*') || hasCommentStart (b :: rest)

theorem stripCommentsAux_id : ∀ (fuel : Nat) (s : List Char),
    hasCommentStart s = false → s.length < fuel → stripCommentsAux fuel s = s := by
  intro fuel
  induction fuel with
  | zero => intro s _ hlen; omega
  | succ fuel ih =>
    intro s hcs hlen
    match s with
    | [] => rfl
    | [a] => rfl
    | a :: b :: rest2 =>
      show (if a = '-' ∧ b = '-' then
          match dropThroughNewline rest2 with
          | some r => stripCommentsAux fuel r
          | none => a :: stripCommentsAux fuel (b :: rest2)
        else if a = '/' ∧ b = '*' then
          match dropThroughStarSlash rest2 with
          | some r => stripCommentsAux fuel r
          | none => a :: stripCommentsAux fuel (b :: rest2)
        else a :: stripCommentsAux fuel (b :: rest2)) = a :: b :: rest2
      have hab1 : ¬(a = '-' ∧ b = '-') := by
        rintro ⟨ha, hb⟩
        simp [hasCommentStart, ha, hb] at hcs
      have hab2 : ¬(a = '/' ∧ b = '*') := by
        rintro ⟨ha, hb⟩
        simp [hasCommentStart, ha, hb] at hcs
      have hr : hasCommentStart (b :: rest2) = false := by
        simp [hasCommentStart] at hcs
        exact hcs.2
      rw [if_neg hab1, if_neg hab2]
      rw [ih (b :: rest2) hr (by simp at hlen ⊢; omega)]

theorem strip_comments_id (s : List Char) (h : hasCommentStart s = false) :
    strip_comments s = s :=
  stripCommentsAux_id (s.length + 1) s h (by omega)

theorem single_statement_id (s : List Char) (h : ∀ c ∈ s, c ≠ ';') :
    single_statement s = s := by
  unfold single_statement
  induction s with
  | nil => rfl
  | cons c cs ih =>
    rw [List.takeWhile_cons_of_pos (by simpa using h c (by simp))]
    rw [ih (fun x hx => h x (by simp [hx]))]

/-! ## Claim theorems: the SQL Guard (C1, C6, C7, C8, C9) -/

/-- An executor that records the SQL string it is handed: `runSql`
returns its argument as the data payload. -/
def exRecorder : Executor :=
  { listTables := {}
    describeTable := fun _ => {}
    runSql := fun sql _ => { ok := true, data := some sql } }

/-- C1: claimed — every `run_sql` action's SQL reaches the query executor
as the SQL Guard's output.  The code violates this: planner.py
`run_action` hands `args["sql"]` to `mcp_read_query` verbatim (the guarded
`_safe_read` wrapper exists at planner.py line 76-91 but is never
called).  With a recording executor, the string received by the executor
is exactly the decision's raw sql argument; for the failing input
`"DROP TABLE x"` that string is one the guard rejects outright, so it is
not the guard's output for any input. -/
theorem C1_run_sql_bypasses_guard :
    (∀ sql : String,
      (run_action exRecorder Action.run_sql [("sql", AVal.str sql)]).data = some sql) ∧
    (run_action exRecorder Action.run_sql [("sql", AVal.str "DROP TABLE x")]).data
      = some "DROP TABLE x" ∧
    ensure_safe_sql "DROP TABLE x" 1000 5000 = none :=
  ⟨fun _ => rfl, rfl, by decide⟩

/-- C6 counterexample: the claim quantifies over every `q` containing a
blacklisted keyword as a whole word outside string literals, but
`"SELECT 1; DROP TABLE x"` contains `DROP` as a whole word (and no quote
character at all, so no string literal), yet `ensure_safe_sql` accepts it:
single-statement truncation runs before the keyword check. -/
theorem C6_counterexample :
    hasWholeWord "DROP".toList (upperL "SELECT 1; DROP TABLE x".toList) = true ∧
    ("SELECT 1; DROP TABLE x".toList.all fun c => !(c = '\'' || c = '"')) = true ∧
    ensure_safe_sql "SELECT 1; DROP TABLE x" 1000 5000 = some "SELECT 1 LIMIT 5000" := by
  decide

/-- C6 (amended): for every `q` whose FIRST statement after comment
stripping contains one of DROP/DELETE/INSERT/UPDATE/ALTER/CREATE/TRUNCATE/
GRANT/REVOKE (indeed any `KEYWORDS` member) as a whole word
case-insensitively, `ensure_safe_sql` rejects, for every limit
configuration. -/
theorem C6_guard_denies_writes (q : String) (d m : Nat) (kw : String)
    (hkw : kw ∈ KEYWORDS)
    (h : hasWholeWord kw.toList (upperL (sanitize_sql q.toList)) = true) :
    ensure_safe_sql q d m = none := by
  have hddl : ddl_dml_hit (upperL (sanitize_sql q.toList)) = true := by
    unfold ddl_dml_hit
    rw [List.any_eq_true]
    exact ⟨kw, hkw, h⟩
  have hddl' : ddl_dml_hit (upperL (sanitize_sql q.data)) = true := hddl
  have hro : ensure_read_only_ok (sanitize_sql q.data) = false := by
    unfold ensure_read_only_ok
    simp [hddl']
  simp only [ensure_safe_sql]
  rw [show (ensure_read_only_ok (sanitize_sql q.toList)) = false from hro]
  simp

/-- C6 witness: the mixed-case, whitespace-padded `" Drop Table x "` is
rejected. -/
theorem C6_guard_denies_writes_witness :
    "DROP" ∈ KEYWORDS ∧
    hasWholeWord "DROP".toList (upperL (sanitize_sql " Drop Table x ".toList)) = true ∧
    ensure_safe_sql " Drop Table x " 1000 5000 = none :=
  ⟨by decide, by decide,
    C6_guard_denies_writes " Drop Table x " 1000 5000 "DROP" (by decide) (by decide)⟩

/-- C7 counterexample: on `"SELECT 1; DROP TABLE x"` the guard neither
rejects outright nor returns `SELECT 1` with `LIMIT <default>` (the
default limit being 1000 here): it appends `LIMIT <max_limit>` instead. -/
theorem C7_counterexample :
    ensure_safe_sql "SELECT 1; DROP TABLE x" 1000 5000 ≠ none ∧
    ensure_safe_sql "SELECT 1; DROP TABLE x" 1000 5000 ≠ some "SELECT 1 LIMIT 1000" := by
  decide

/-- C7 (amended): `ensure_safe_sql("SELECT 1; DROP TABLE x")` retains only
the first statement, `SELECT 1`, with `LIMIT <max_limit>` (not
`<default_limit>`) appended; the second statement's text — indeed the word
DROP at all — never appears in the guard's output. -/
theorem C7_single_statement_safe :
    ensure_safe_sql "SELECT 1; DROP TABLE x" 1000 5000 = some "SELECT 1 LIMIT 5000" ∧
    containsSub "DROP TABLE x" "SELECT 1 LIMIT 5000" = false ∧
    containsSub "DROP" "SELECT 1 LIMIT 5000" = false := by
  decide

/-- C8 counterexample: for `q = "SELECT * FROM t"` (no LIMIT clause) with
`default_limit = 1000`, the result does not contain `LIMIT 1000` at all —
`cap_limit` appends `LIMIT <max_limit>` when no LIMIT is present, and the
`default_limit` fallback in `ensure_safe_sql` is dead. -/
theorem C8_counterexample :
    ensure_safe_sql "SELECT * FROM t" 1000 5000 = some "SELECT * FROM t LIMIT 5000" ∧
    containsSub "LIMIT 1000" "SELECT * FROM t LIMIT 5000" = false := by
  decide

/-- C8 (amended): `"SELECT * FROM t LIMIT 999999"` with `max_limit = 5000`
is capped to contain `LIMIT 5000`; and for every accepted `q` with no
LIMIT clause the result is the sanitized, stripped statement with exactly
one LIMIT clause appended at the end — whose value is `max_limit`, not
`default_limit`. -/
theorem C8_limit_cap (q : String) (d m : Nat)
    (hro : ensure_read_only_ok (sanitize_sql q.toList) = true)
    (hnl : hasLimit (stripWs (sanitize_sql q.toList)) = false) :
    ensure_safe_sql q d m
      = some ⟨stripWs (sanitize_sql q.toList) ++ (" LIMIT ".toList ++ natToDec m)⟩ ∧
    ensure_safe_sql "SELECT * FROM t LIMIT 999999" 1000 5000
      = some "SELECT * FROM t LIMIT 5000" := by
  constructor
  · have hro' : ensure_read_only_ok (sanitize_sql q.data) = true := hro
    have hnl' : hasLimit (stripWs (sanitize_sql q.data)) = false := hnl
    simp only [ensure_safe_sql, cap_limit]
    rw [show (ensure_read_only_ok (sanitize_sql q.toList)) = true from hro']
    simp [hnl', hasLimit_append_limit]
  · decide

/-- C8 witness: instantiated at `"SELECT * FROM t"` with
`default_limit = 1000`, `max_limit = 5000`. -/
theorem C8_limit_cap_witness :
    ensure_safe_sql "SELECT * FROM t" 1000 5000
      = some ⟨stripWs (sanitize_sql "SELECT * FROM t".toList)
          ++ (" LIMIT ".toList ++ natToDec 5000)⟩ :=
  (C8_limit_cap "SELECT * FROM t" 1000 5000 (by decide) (by decide)).1

/-- C9 counterexample: the guard accepts the query of the first conjunct
below — a legal arithmetic expression `a-(-b)` written with a block
comment between the two minus signs — but stripping the block comment
glues the minus signs into a fresh `--` line comment, so a second guard
run strips further text: guard(guard(q)) differs from guard(q). -/
theorem C9_counterexample :
    ensure_safe_sql "SELECT a-/*c*/-b\nFROM t" 1000 5000
      = some "SELECT a--b\nFROM t LIMIT 5000" ∧
    ensure_safe_sql "SELECT a--b\nFROM t LIMIT 5000" 1000 5000
      = some "SELECT aFROM t LIMIT 5000" ∧
    ("SELECT a--b\nFROM t LIMIT 5000" : String) ≠ "SELECT aFROM t LIMIT 5000" := by
  decide

/-- C9 (amended): the guard is idempotent on every accepted input whose
output `o` is free of the two adversarial interactions: `o` contains no
comment-opening pair and no semicolon, still passes the read-only check,
is whitespace-trimmed, and carries a LIMIT clause whose first
boundary-free `limit` match is within `max_limit` — conditions every
well-formed guard output satisfies, but which fail e.g. for comment-splice
inputs (see the counterexample) or identifier-embedded `limit` text. -/
theorem C9_guard_idempotent (q o : String) (d m v : Nat)
    (h0 : ensure_safe_sql q d m = some o)
    (h1 : hasCommentStart o.toList = false)
    (h2 : ∀ c ∈ o.toList, c ≠ ';')
    (h3 : ensure_read_only_ok o.toList = true)
    (h4 : stripWs o.toList = o.toList)
    (h5 : hasLimit o.toList = true)
    (h6 : limitNoB o.toList = some v)
    (h7 : v ≤ m) :
    ensure_safe_sql o d m = ensure_safe_sql q d m ∧
    ensure_safe_sql o d m = some o := by
  have hsan : sanitize_sql o.toList = o.toList := by
    unfold sanitize_sql
    rw [strip_comments_id _ h1, single_statement_id _ h2]
  have h8 : ¬(m < v) := by omega
  have hmain : ensure_safe_sql o d m = some o := by
    have hsan' : sanitize_sql o.data = o.data := hsan
    have h3' : ensure_read_only_ok o.data = true := h3
    have h4' : stripWs o.data = o.data := h4
    have h5' : hasLimit o.data = true := h5
    have h6' : limitNoB o.data = some v := h6
    simp only [ensure_safe_sql, cap_limit]
    rw [show (ensure_read_only_ok (sanitize_sql o.toList)) = true from by
      rw [show sanitize_sql o.toList = o.toList from hsan']; exact h3']
    simp [hsan', h4', h5', h6', h8]
  exact ⟨by rw [hmain, h0], hmain⟩

/-- C9 witness: instantiated at `q = "SELECT * FROM t"`, whose guard
output `"SELECT * FROM t LIMIT 5000"` satisfies every side condition. -/
theorem C9_guard_idempotent_witness :
    ensure_safe_sql "SELECT * FROM t LIMIT 5000" 1000 5000
      = ensure_safe_sql "SELECT * FROM t" 1000 5000 :=
  (C9_guard_idempotent "SELECT * FROM t" "SELECT * FROM t LIMIT 5000" 1000 5000 5000
    (by decide) (by decide) (by decide) (by decide) (by decide) (by decide)
    (by decide) (by decide)).1

/-! ## Claim theorems: the Step Controller (C3, C4, C5, C10) -/

/-- C3: in the planner graph, `done` set by a `finish` observation survives
`judge` only when qualifying evidence exists.  First conjunct: if `done`
was set while no evidence exists, `judge` un-sets `done` and marks
`last_error = "premature_finish"` (so the conditional edge loops back to
`decide` and the run continues).  Second conjunct (contrapositive safety):
a state whose last step is a `finish` can only be terminal after `judge`
if the evidence predicate holds. -/
theorem C3_premature_finish_reset (st : S) (lst : Step)
    (hl : st.steps.getLast? = some lst) (hf : lst.action = Action.finish) :
    (st.done = true → has_recent_sql_evidence st = false →
      (judge st).done = false ∧ (judge st).last_error = some "premature_finish") ∧
    ((judge st).done = true → has_recent_sql_evidence st = true) := by
  constructor
  · intro hd hev
    simp [judge, hd, hl, hf, hev]
  · intro hdone
    cases hev : has_recent_sql_evidence st
    · exfalso
      by_cases hd : st.done = true
      · simp [judge, hd, hl, hf, hev] at hdone
      · simp only [Bool.not_eq_true] at hd
        simp [judge, hd] at hdone
    · rfl

def stepC3 : Step := { action := Action.finish, observation := { ok := false } }

def stC3 : S := { question := "q", done := true, steps := [stepC3] }

/-- C3 witness: a session whose `finish` observation set `done` with no
evidence in the trace. -/
theorem C3_premature_finish_reset_witness :
    (judge stC3).done = false ∧ (judge stC3).last_error = some "premature_finish" :=
  (C3_premature_finish_reset stC3 stepC3 (by decide) rfl).1 rfl (by decide)

/-- C4: for every state and every validated decision proposing `finish`
with no qualifying evidence, the Evidence-Guard rewrite never yields
`finish` and always yields one of list_tables/describe_table/run_sql; and
(in a non-budget, non-compaction iteration) the step `decide` actually
appends carries exactly that rewritten decision. -/
theorem C4_evidence_guard_forward_progress (dm : S → DecideOut) (st : S)
    (hdone : st.done = false)
    (hlen : st.steps.length + 2 ≤ st.max_steps)
    (hfin : (dm st).action = Action.finish)
    (hev : has_recent_sql_evidence st = false) :
    ((rewrite_finish st (dm st)).action ≠ Action.finish ∧
     ((rewrite_finish st (dm st)).action = Action.list_tables ∨
      (rewrite_finish st (dm st)).action = Action.describe_table ∨
      (rewrite_finish st (dm st)).action = Action.run_sql)) ∧
    (decideStep dm st).steps =
      st.steps ++ [{ thought := (rewrite_finish st (dm st)).thought,
                     action := (rewrite_finish st (dm st)).action,
                     args := (rewrite_finish st (dm st)).args }] := by
  have hc1 : ¬((st.steps.length : Int) > (st.max_steps : Int) - 2) := by omega
  have hc2 : ¬(st.steps.length ≥ st.max_steps) := by omega
  constructor
  · unfold rewrite_finish
    rw [hev]
    simp only [Bool.false_eq_true, if_false]
    split
    · exact ⟨(fun h => nomatch h), Or.inl rfl⟩
    · split
      · exact ⟨(fun h => nomatch h), Or.inr (Or.inl rfl)⟩
      · split
        · split
          · exact ⟨(fun h => nomatch h), Or.inr (Or.inr rfl)⟩
          · exact ⟨(fun h => nomatch h), Or.inr (Or.inr rfl)⟩
        · exact ⟨(fun h => nomatch h), Or.inl rfl⟩
  · simp only [decideStep]
    simp [hdone, hc1, hc2, hfin]

def dmC4 : S → DecideOut := fun _ => { thought := "done", action := Action.finish }

/-- C4 witness: a fresh session with a proposed `finish` and no evidence;
the rewrite is a non-finish investigative action. -/
theorem C4_evidence_guard_forward_progress_witness :
    (rewrite_finish (initState "q" 20) (dmC4 (initState "q" 20))).action ≠ Action.finish :=
  ((C4_evidence_guard_forward_progress dmC4 (initState "q" 20) rfl (by decide) rfl
    (by decide)).1).1

def stC5 : S :=
  { question := "q"
    steps := [{ action := Action.sample_rows,
                observation := { ok := true, preview := some "rows" } }] }

def dC5 : DecideOut := { thought := "T", action := Action.finish }

/-- C5 counterexample: the claim admits `sample_rows` results as
qualifying evidence, but `_has_recent_sql_evidence` tests only
`action == "run_sql"`.  A state whose last step is a SUCCESSFUL
`sample_rows` with non-empty preview (first conjunct: it satisfies the
claim's run_sql-or-sample_rows evidence predicate) still gets its proposed
`finish` rewritten (to `list_tables`), i.e. it does not pass unchanged. -/
theorem C5_counterexample :
    ((lastN 6 stC5.steps).any fun st =>
      (st.action == Action.run_sql || st.action == Action.sample_rows) &&
        st.observation.ok && truthyStr st.observation.preview) = true ∧
    rewrite_finish stC5 dC5 ≠ dC5 ∧
    (rewrite_finish stC5 dC5).action = Action.list_tables := by decide

/-- C5 (amended): only `run_sql` counts as evidence.  If within the last 6
steps some step has `action = run_sql`, `observation.ok = true` and a
non-empty preview (that is, `_has_recent_sql_evidence` holds), then a
proposed `finish` passes through the Evidence Guard completely unchanged
(thought, action and args), and the appended step carries exactly the
proposed decision. -/
theorem C5_evidence_guard_acceptance (dm : S → DecideOut) (st : S)
    (hdone : st.done = false)
    (hlen : st.steps.length + 2 ≤ st.max_steps)
    (hfin : (dm st).action = Action.finish)
    (hev : has_recent_sql_evidence st = true) :
    rewrite_finish st (dm st) = dm st ∧
    (decideStep dm st).steps =
      st.steps ++ [{ thought := (dm st).thought, action := (dm st).action,
                     args := (dm st).args }] := by
  have hrw : rewrite_finish st (dm st) = dm st := by
    unfold rewrite_finish
    rw [hev]
    simp
  have hc1 : ¬((st.steps.length : Int) > (st.max_steps : Int) - 2) := by omega
  have hc2 : ¬(st.steps.length ≥ st.max_steps) := by omega
  refine ⟨hrw, ?_⟩
  simp only [decideStep]
  simp [hdone, hc1, hc2, hfin, hrw]

def stC5w : S :=
  { question := "q"
    steps := [{ action := Action.run_sql,
                observation := { ok := true, preview := some "rows" } }] }

def dmC5 : S → DecideOut := fun _ => { thought := "T", action := Action.finish }

/-- C5 witness: with a successful `run_sql` step in the trace the proposed
`finish` is untouched. -/
theorem C5_evidence_guard_acceptance_witness :
    rewrite_finish stC5w (dmC5 stC5w) = dmC5 stC5w :=
  (C5_evidence_guard_acceptance dmC5 stC5w rfl (by decide) rfl (by decide)).1

def stC10 : S := { question := "q", known_tables := ["t2", "t1"] }

/-- C10 counterexample: with `max_tables = 1` the known-table list
`["t1","t2"]` is cut to `["t1"]`, data was actually removed, and the
truncated output carries no ellipsis marker anywhere. -/
theorem C10_counterexample :
    (summarize_context stC10 1 12 400 6).map ContextPayload.known_tables = some ["t1"] ∧
    1 < (sortedDedup stC10.known_tables).length ∧
    ((summarize_context stC10 1 12 400 6).map
      (fun p => p.known_tables.any fun t => containsSub "…" t)) = some false := by decide

/-- C10 (amended): only the string truncations follow the
append-ellipsis-marker convention: `truncate_text` appends `…` exactly
when it cuts.  The list truncations of `summarize_context` — the
known-table list cut to `max_tables` and each per-table column list cut to
`max_cols_per_table` — are bare prefix cuts (`truncate_list = take`) with
no marker. -/
theorem C10_truncation_markers
    (s : String) (cap : Nat) (hs : s ≠ "") (hcut : cap < s.toList.length)
    (st : S) (mt mc mp ms : Nat) (payload : ContextPayload)
    (hp : summarize_context st mt mc mp ms = some payload) :
    truncate_text s cap = (⟨s.toList.take cap⟩ : String) ++ "…" ∧
    payload.known_tables = truncate_list (sortedDedup st.known_tables) mt ∧
    (∀ (xs : List String) (k : Nat), truncate_list xs k = xs.take k) := by
  refine ⟨?_, ?_, fun xs k => rfl⟩
  · unfold truncate_text
    rw [if_neg (by simpa using hs), if_pos hcut]
  · simp only [summarize_context] at hp
    obtain ⟨trail, _, hpl⟩ := Option.map_eq_some'.mp hp
    rw [← hpl]

def stC10w : S := { question := "q", known_tables := ["b", "a"] }

def pC10w : ContextPayload :=
  { known_tables := ["a"], known_schemas := [], recent_steps := [],
    last_error_code := none }

/-- C10 witness: a concrete cut string and a concrete summarize call. -/
theorem C10_truncation_markers_witness :
    truncate_text "abcd" 3 = (⟨"abcd".toList.take 3⟩ : String) ++ "…" :=
  (C10_truncation_markers "abcd" 3 (by decide) (by decide) stC10w 1 12 400 6 pC10w
    (by decide)).1

/-! ## Controller-iteration lemmas (for C2) -/

theorem lastN_of_le {n : Nat} {xs : List Step} (h : xs.length ≤ n) :
    lastN n xs = xs := by
  unfold lastN
  rw [Nat.sub_eq_zero_of_le h, List.drop_zero]

theorem judge_of_not_done {s : S} (h : s.done = false) : judge s = s := by
  simp [judge, h]

theorem judge_of_last_not_finish {s : S} {lst : Step}
    (hl : s.steps.getLast? = some lst) (hf : lst.action ≠ Action.finish) :
    judge s = s := by
  by_cases hd : s.done = true
  · simp [judge, hd, hl, hf]
  · simp only [Bool.not_eq_true] at hd
    simp [judge, hd]

theorem codeRes_toObs (r : ExecResult) : ∃ c, codeRes r.toObs = some c := by
  cases hec : r.errCode <;> simp [ExecResult.toObs, codeRes, hec]

theorem codeRes_run_action (ex : Executor) (a : Action) (args : Args)
    (h : a ≠ Action.finish) : ∃ c, codeRes (run_action ex a args) = some c := by
  cases a with
  | finish => exact absurd rfl h
  | list_tables => exact codeRes_toObs _
  | describe_table => exact codeRes_toObs _
  | sample_rows => exact codeRes_toObs _
  | run_sql => exact codeRes_toObs _

theorem iterCtrl_succ_right (dm : S → DecideOut) (ex : Executor) (n : Nat) (s : S) :
    iterCtrl dm ex (n + 1) s = (iterCtrl dm ex n s).bind (controllerStep dm ex) := by
  induction n generalizing s with
  | zero =>
    cases hc : controllerStep dm ex s with
    | none =>
      have l1 : iterCtrl dm ex 1 s = none := by rw [iterCtrl, hc]
      rw [l1, iterCtrl]
      simp [hc]
    | some s2 =>
      have l1 : iterCtrl dm ex 1 s = some s2 := by
        rw [iterCtrl, hc]
        rfl
      rw [l1, iterCtrl]
      simp [hc]
  | succ n ih =>
    cases hc : controllerStep dm ex s with
    | none =>
      have l1 : iterCtrl dm ex (n + 1 + 1) s = none := by rw [iterCtrl, hc]
      have l2 : iterCtrl dm ex (n + 1) s = none := by rw [iterCtrl, hc]
      rw [l1, l2]
      rfl
    | some s2 =>
      have l1 : iterCtrl dm ex (n + 1 + 1) s = iterCtrl dm ex (n + 1) s2 := by
        rw [iterCtrl, hc]
      have l2 : iterCtrl dm ex (n + 1) s = iterCtrl dm ex n s2 := by
        rw [iterCtrl, hc]
      rw [l1, l2, ← ih s2]

/-- `act` on a state whose last (just-appended) step is not a `finish`:
it executes the action, stores the summarized observation on that step,
and touches neither `done`, `answer`, `max_steps` nor `question`; it never
raises (executor errors are dict-shaped, so `code(obs)` succeeds). -/
theorem act_spec (ex : Executor) (s : S) (pre : List Step) (t : Step)
    (hs : s.steps = pre ++ [t]) (hna : t.action ≠ Action.finish) :
    ∃ s', act ex s = some s' ∧
      s'.steps = pre ++
        [{ t with observation := summarize_obs t.action (run_action ex t.action t.args) }] ∧
      s'.done = s.done ∧ s'.answer = s.answer ∧ s'.max_steps = s.max_steps ∧
      s'.question = s.question := by
  have hfinb : (t.action == Action.finish) = false := by
    cases h : t.action
    case finish => exact absurd h hna
    all_goals rfl
  unfold act
  rw [hs, List.getLast?_concat, List.dropLast_concat]
  dsimp only
  rw [hfinb]
  simp only [Bool.false_eq_true, if_false]
  by_cases hok : okRes (run_action ex t.action t.args) = true
  · rw [if_pos hok]
    refine ⟨_, rfl, ?_, ?_, ?_, ?_, ?_⟩
    all_goals split <;> split <;> simp
  · rw [if_neg hok]
    obtain ⟨c, hc⟩ := codeRes_run_action ex t.action t.args hna
    rw [hc]
    dsimp only
    refine ⟨_, rfl, ?_, ?_, ?_, ?_, ?_⟩
    all_goals split <;> split <;> simp

/-- `decide` on a small-budget (`max_steps ≤ 6`) state below budget: the
sliding-window compaction is a no-op (it keeps the last
`max(max_steps/2, 6) = 6` steps of a list that is at most 6 long) and the
validated decision is appended as a new step. -/
theorem decideStep_small_step (dm : S → DecideOut) (s : S)
    (hdone : s.done = false) (hm6 : s.max_steps ≤ 6) (hlen6 : s.steps.length ≤ 6)
    (hlt : s.steps.length < s.max_steps) (hnf : (dm s).action ≠ Action.finish) :
    decideStep dm s = { s with steps := s.steps ++
      [{ thought := (dm s).thought, action := (dm s).action, args := (dm s).args }] } := by
  have hcomp : lastN (max (s.max_steps / 2) 6) s.steps = s.steps :=
    lastN_of_le (le_trans hlen6 (Nat.le_max_right _ _))
  have hnfb : ((dm s).action == Action.finish) = false := by
    cases h : (dm s).action
    case finish => exact absurd h hnf
    all_goals rfl
  unfold decideStep
  dsimp only
  rw [hdone]
  simp only [Bool.false_eq_true, if_false]
  rw [hcomp]
  rw [show ({ s with steps := s.steps } : S) = s from rfl]
  simp only [ite_self]
  rw [if_neg (by omega : ¬ s.steps.length ≥ s.max_steps)]
  rw [hnfb]
  simp only [Bool.false_eq_true, if_false]
  rw [hdone]

/-- `decide` on a small-budget state at (or beyond) budget: compaction is
a no-op and the budget check fires, terminating with the
`step_budget_exceeded` answer. -/
theorem decideStep_small_budget (dm : S → DecideOut) (s : S)
    (hdone : s.done = false) (hm6 : s.max_steps ≤ 6) (hlen6 : s.steps.length ≤ 6)
    (hge : s.max_steps ≤ s.steps.length) :
    decideStep dm s = { s with
        done := true
        answer := some { ok := false, reason := some "step_budget_exceeded", trace := some s.steps } } := by
  have hcomp : lastN (max (s.max_steps / 2) 6) s.steps = s.steps :=
    lastN_of_le (le_trans hlen6 (Nat.le_max_right _ _))
  unfold decideStep
  dsimp only
  rw [hdone]
  simp only [Bool.false_eq_true, if_false]
  rw [hcomp]
  rw [show ({ s with steps := s.steps } : S) = s from rfl]
  simp only [ite_self]
  rw [if_pos (by omega : s.steps.length ≥ s.max_steps)]

/-- `decide` on a large-budget (`max_steps ≥ 7`) state with a non-finish
decision-maker: the compaction keeps the retained list strictly below the
budget, so the budget check can never fire; a new step is appended onto
some base state `sb` with `done = false`. -/
theorem decideStep_no_budget (dm : S → DecideOut) (s : S)
    (hm : 7 ≤ s.max_steps) (hdone : s.done = false)
    (hdm : ∀ t, (dm t).action ≠ Action.finish) :
    ∃ sb : S, decideStep dm s = { sb with steps := sb.steps ++
        [{ thought := (dm sb).thought, action := (dm sb).action, args := (dm sb).args }] } ∧
      sb.done = false ∧ sb.max_steps = s.max_steps := by
  by_cases hcond : (s.steps.length : Int) > (s.max_steps : Int) - 2
  · refine ⟨{ s with steps := lastN (max (s.max_steps / 2) 6) s.steps }, ?_, by simp [hdone],
      by simp⟩
    have hk : max (s.max_steps / 2) 6 ≤ s.max_steps - 1 :=
      Nat.max_le.mpr ⟨by omega, by omega⟩
    have hnfb : ∀ t, ((dm t).action == Action.finish) = false := by
      intro t
      cases h : (dm t).action
      case finish => exact absurd h (hdm t)
      all_goals rfl
    unfold decideStep
    dsimp only
    rw [hdone]
    simp only [Bool.false_eq_true, if_false]
    rw [if_pos hcond]
    dsimp only
    rw [if_neg (show ¬ (lastN (max (s.max_steps / 2) 6) s.steps).length ≥ s.max_steps from by
      unfold lastN
      rw [List.length_drop]
      omega)]
    rw [hnfb]
    simp only [Bool.false_eq_true, if_false]
    rw [hdone]
  · refine ⟨s, ?_, hdone, rfl⟩
    have hnfb : ∀ t, ((dm t).action == Action.finish) = false := by
      intro t
      cases h : (dm t).action
      case finish => exact absurd h (hdm t)
      all_goals rfl
    unfold decideStep
    dsimp only
    rw [hdone]
    simp only [Bool.false_eq_true, if_false]
    rw [if_neg hcond]
    rw [if_neg (by omega : ¬ s.steps.length ≥ s.max_steps)]
    rw [hnfb]
    simp only [Bool.false_eq_true, if_false]
    rw [hdone]

/-- One full decide→act→judge pass on a large-budget state never reaches
the terminal `done = true`. -/
theorem ctrlStep_no_budget (dm : S → DecideOut) (ex : Executor)
    (hdm : ∀ t, (dm t).action ≠ Action.finish) (s : S)
    (hm : 7 ≤ s.max_steps) (hdone : s.done = false) :
    ∃ s', controllerStep dm ex s = some s' ∧ s'.done = false ∧
      s'.max_steps = s.max_steps := by
  obtain ⟨sb, hds, hbd, hbm⟩ := decideStep_no_budget dm s hm hdone hdm
  set t : Step := { thought := (dm sb).thought, action := (dm sb).action,
                    args := (dm sb).args } with ht
  have hsteps : (decideStep dm s).steps = sb.steps ++ [t] := by rw [hds]
  have hna : t.action ≠ Action.finish := hdm sb
  obtain ⟨s', hact, hst, hdd, hans, hmx, hq⟩ :=
    act_spec ex (decideStep dm s) sb.steps t hsteps hna
  have hd' : s'.done = false := by
    rw [hdd, hds]
    exact hbd
  refine ⟨s', ?_, hd', ?_⟩
  · unfold controllerStep
    rw [hact]
    simp [judge_of_not_done hd']
  · rw [hmx, hds]
    exact hbm

/-- On a large budget (`max_steps ≥ 7`), the run never becomes done: the
sliding-window compaction keeps the step list strictly below the budget
forever. -/
theorem iter_no_budget (dm : S → DecideOut) (ex : Executor)
    (hdm : ∀ t, (dm t).action ≠ Action.finish) :
    ∀ (n : Nat) (s : S), 7 ≤ s.max_steps → s.done = false →
      ∃ s', iterCtrl dm ex n s = some s' ∧ s'.done = false := by
  intro n
  induction n with
  | zero => intro s _ hd; exact ⟨s, rfl, hd⟩
  | succ n ih =>
    intro s hm hd
    obtain ⟨s2, hc, hd2, hm2⟩ := ctrlStep_no_budget dm ex hdm s hm hd
    obtain ⟨s', hit, hd'⟩ := ih s2 (by omega) hd2
    refine ⟨s', ?_, hd'⟩
    rw [iterCtrl, hc]
    exact hit

/-- On a small budget (`max_steps ≤ 6`), after `k ≤ max_steps` passes the
run holds exactly `k` executed non-finish steps and is not done. -/
theorem iter_budget_inv (dm : S → DecideOut) (ex : Executor)
    (hdm : ∀ t, (dm t).action ≠ Action.finish) (q : String)
    (m : Nat) (hm1 : 1 ≤ m) (hm6 : m ≤ 6) :
    ∀ k, k ≤ m → ∃ s, iterCtrl dm ex k (initState q m) = some s ∧
      s.max_steps = m ∧ s.done = false ∧ s.steps.length = k ∧
      ∀ st ∈ s.steps, st.action ≠ Action.finish := by
  intro k
  induction k with
  | zero =>
    intro _
    exact ⟨initState q m, rfl, rfl, rfl, rfl, by intro st hst; simp [initState] at hst⟩
  | succ k ih =>
    intro hk
    obtain ⟨s, hit, hmx, hd, hlen, hall⟩ := ih (by omega)
    have hstep := decideStep_small_step dm s hd (by omega) (by omega) (by omega) (hdm s)
    set t : Step := { thought := (dm s).thought, action := (dm s).action,
                      args := (dm s).args } with ht
    have hsteps : (decideStep dm s).steps = s.steps ++ [t] := by rw [hstep]
    have hna : t.action ≠ Action.finish := hdm s
    obtain ⟨s', hact, hst, hdd, hans, hmx', hq'⟩ :=
      act_spec ex (decideStep dm s) s.steps t hsteps hna
    have hd' : s'.done = false := by
      rw [hdd, hstep]
      exact hd
    have hc : controllerStep dm ex s = some s' := by
      unfold controllerStep
      rw [hact]
      simp [judge_of_not_done hd']
    refine ⟨s', ?_, ?_, hd', ?_, ?_⟩
    · rw [iterCtrl_succ_right, hit]
      simp [hc]
    · rw [hmx', hstep]
      exact hmx
    · rw [hst]
      simp [hlen]
    · intro st hstm
      rw [hst] at hstm
      rcases List.mem_append.mp hstm with h | h
      · exact hall st h
      · simp at h
        subst h
        exact hna

def dmLoop : S → DecideOut := fun _ => { action := Action.list_tables }

def exLoop : Executor :=
  { listTables := { ok := true, tables := some ["t"] }
    describeTable := fun _ => { ok := true, columns := some [ColE.named "c"] }
    runSql := fun _ _ => { ok := true, data := some "row" } }

/-- C2 counterexample: with the default `max_steps = 20` and a
decision-maker that always returns a non-finish action, the run does NOT
terminate after exactly `max_steps` iterations: after 20 (and 21)
decide→act→judge passes, `done` is still false and no answer exists. -/
theorem C2_counterexample :
    (iterCtrl dmLoop exLoop 20 (initState "q" 20)).map S.done = some false ∧
    (iterCtrl dmLoop exLoop 21 (initState "q" 20)).map S.done = some false ∧
    (iterCtrl dmLoop exLoop 20 (initState "q" 20)).map answerReason = some none := by
  decide

/-- C2 (amended): with a decision-maker that always returns non-finish
actions, budget termination happens exactly as claimed only for
`1 ≤ max_steps ≤ 6`: after `max_steps` passes the run is not yet done and
has exactly `max_steps` steps, and the next pass terminates it with
`answer.reason = "step_budget_exceeded"`.  For every `max_steps ≥ 7`
(including the default 20), the sliding-window compaction — which
truncates to `max(max_steps/2, 6) < max_steps` retained steps whenever the
list is within 2 of the budget — keeps the run below budget forever, so
it never reaches the budget-termination state after any number of
passes. -/
theorem C2_budget_termination (dm : S → DecideOut) (ex : Executor)
    (hdm : ∀ t, (dm t).action ≠ Action.finish) (q : String) :
    (∀ m, 1 ≤ m → m ≤ 6 →
      (∃ s, iterCtrl dm ex m (initState q m) = some s ∧ s.done = false ∧
            s.steps.length = m) ∧
      (∃ s, iterCtrl dm ex (m + 1) (initState q m) = some s ∧ s.done = true ∧
            answerReason s = some "step_budget_exceeded")) ∧
    (∀ m, 7 ≤ m → ∀ n, ∃ s, iterCtrl dm ex n (initState q m) = some s ∧
      s.done = false) := by
  constructor
  · intro m hm1 hm6
    obtain ⟨s, hit, hmx, hd, hlen, hall⟩ := iter_budget_inv dm ex hdm q m hm1 hm6 m le_rfl
    constructor
    · exact ⟨s, hit, hd, hlen⟩
    · have hstepB := decideStep_small_budget dm s hd (by omega) (by omega) (by omega)
      have hne : s.steps ≠ [] := by
        intro h0
        rw [h0] at hlen
        simp at hlen
        omega
      set t : Step := s.steps.getLast hne with htdef
      have hsplit : s.steps = s.steps.dropLast ++ [t] :=
        (List.dropLast_append_getLast hne).symm
      have hna : t.action ≠ Action.finish := hall t (List.getLast_mem hne)
      have hsB : (decideStep dm s).steps = s.steps.dropLast ++ [t] := by
        rw [hstepB]
        exact hsplit
      obtain ⟨s', hact, hst, hdd, hans, hmx', hq'⟩ :=
        act_spec ex (decideStep dm s) s.steps.dropLast t hsB hna
      have hd' : s'.done = true := by
        rw [hdd, hstepB]
      have hans' : s'.answer
          = some { ok := false, reason := some "step_budget_exceeded", trace := some s.steps } := by
        rw [hans, hstepB]
      have hlast : s'.steps.getLast? = some
          { t with observation := summarize_obs t.action (run_action ex t.action t.args) } := by
        rw [hst]
        exact List.getLast?_concat _
      have hj : judge s' = s' := judge_of_last_not_finish hlast hna
      have hc : controllerStep dm ex s = some s' := by
        unfold controllerStep
        rw [hact]
        simp [hj]
      refine ⟨s', ?_, hd', ?_⟩
      · rw [iterCtrl_succ_right, hit]
        simp [hc]
      · unfold answerReason
        rw [hans']
  · intro m hm7 n
    exact iter_no_budget dm ex hdm n (initState q m) hm7 rfl

/-- C2 witness: at `max_steps = 2` the run from a fresh state terminates
during the third pass with the budget answer. -/
theorem C2_budget_termination_witness :
    ∃ s, iterCtrl dmLoop exLoop 3 (initState "q" 2) = some s ∧ s.done = true ∧
      answerReason s = some "step_budget_exceeded" :=
  ((C2_budget_termination dmLoop exLoop (fun _ h => nomatch h) "q").1 2 (by decide)
    (by decide)).2

end DbAgent
